import Mathlib

/-!
A shallow embedding of the core of the `liquidation-bot` repository
(`src/users/users.service.ts`, `src/users/storage/storage.service.ts`),
with theorems settling the spec's claims about the tracker loop, the
bootstrap watchlist seeding, the liquidation plan arithmetic and the
mempool watchdog.

Conventions of the embedding:
* Addresses are strings, as in the source.
* `ethers.BigNumber` values are modelled as `Nat` (the code never produces
  negative values on these paths); `BigNumber.div` truncates towards zero,
  which on naturals is `Nat` division.
* RPC calls that swallow their errors (`.catch(() => console.log(...))`)
  are modelled as `Option`-valued oracles passed in as function arguments.
* JavaScript's `Array.prototype.sort(cmp)` with the source's comparators
  (which return only `1` or `-1`, never `0`) is modelled as a stable merge
  sort `List.mergeSort le` with `le b1 b2 = (cmp b1 b2 ≤ 0)`.  The ECMAScript
  standard requires `sort` to be stable; the source's comparators are
  inconsistent on ties (both orders compare `-1`), so tie order is
  implementation-dependent, and we fix the stable-sort determinization.
  No comparator of the source ever inspects anything but the compared keys,
  so tie-breaking never depends on market addresses in any implementation.
-/

abbrev Addr := String

/-! ### JavaScript promise truthiness

`StorageService.addAccountsToTrack` filters its argument with an `async`
arrow function.  `Array.prototype.filter` is synchronous: it tests the raw
return value of the callback for truthiness, and an `async` function
returns a `Promise` object, which is always truthy, whatever boolean it
will eventually resolve to.  We model this by wrapping the eventual value
in a `Promise` structure whose JavaScript truthiness is constantly `true`. -/

structure Promise (α : Type) where
  result : α
deriving DecidableEq

/-- JavaScript truthiness of a (pending) `Promise` object: always `true`. -/
def Promise.jsTruthy {α : Type} (_ : Promise α) : Bool := true

/-! ### Watchlist store (`storage.service.ts`)

The durable redis sets are modelled as duplicate-free lists of addresses;
`SADD` appends the members not already present, preserving insertion
order. -/

/-- Model of `redis.sadd set xs`: add each element of `xs` not already in the set. -/
def saddSet (s : List Addr) (xs : List Addr) : List Addr :=
  xs.foldl (fun t x => if t.contains x then t else t ++ [x]) s

/-- `StorageService.isBlackListed`, over an explicit blacklist-set content. -/
def isBlackListed (blacklist : List Addr) (a : Addr) : Bool := blacklist.contains a

/-- `StorageService.addAccountsToTrack(acc, limit)`: filters `acc` through the
`async` blacklist predicate (whose `Promise` result is always truthy, see
`Promise.jsTruthy`), `SADD`s the first `limit` survivors into the durable
`AAVE#accountToTrack` set, and returns them.  Result: (new durable set
contents, returned list). -/
def addAccountsToTrack (blacklist : List Addr) (trackStoreContents : List Addr)
    (acc : List Addr) (limit : Nat) : List Addr × List Addr :=
  let accs := acc.filter (fun a => (Promise.mk (!(isBlackListed blacklist a))).jsTruthy)
  (saddSet trackStoreContents (accs.take limit), accs.take limit)

/-! ### Account oracle data (`contract.service.ts`)

`getUserConfig` resolves to `LendingPool.getUserAccountData`, or to
`undefined` when the RPC call fails (the `.catch` swallows the error); we
model its result as `Option UserConfig`. -/

structure UserConfig where
  totalCollateralETH : Nat
  totalDebtETH : Nat
  availableBorrowETH : Nat
  currentLiquidationThreshold : Nat
  healthFactor : Nat
deriving DecidableEq

/-- One element of the `accountsData` array built at bootstrap:
`{ ...config, address }`. -/
structure AccountData extends UserConfig where
  address : Addr
deriving DecidableEq

/-! ### Bootstrap (`UsersService._initAccounts`) -/

/-- `this.LIMIT_ACCOUNTS_TO_TRACK` (the spec's K). -/
def LIMIT_ACCOUNTS_TO_TRACK : Nat := 200

/-- The bootstrap sort comparator
`(acc1, acc2) => BigNumber.from(acc1.healthFactor).gt(acc2.healthFactor) ? 1 : -1`:
`acc1` sorts no later than `acc2` iff the comparator is non-positive,
i.e. iff `acc1.healthFactor ≤ acc2.healthFactor`. -/
def hfAscending (a1 a2 : AccountData) : Bool := decide (a1.healthFactor ≤ a2.healthFactor)

/-- Result of `_initAccounts`: the durable `AAVE#accountToTrack` contents and
the in-memory `this.tracked` list. -/
structure BootstrapResult where
  store : List Addr
  tracked : List Addr
deriving DecidableEq

/-- `UsersService._initAccounts`, parameterized by the durable store contents,
the candidate address list (`AAVE#allAccounts`, or the subgraph enumeration when
that set is empty) and the per-address account oracle.  Mirrors the source:
if fewer than `LIMIT_ACCOUNTS_TO_TRACK` addresses are already tracked, fetch
every candidate's config, drop failed fetches (`!!acc.healthFactor`), sort
ascending by health factor, keep accounts with
`totalDebtETH > parseEther("0.0001") = 10^14` and
`healthFactor > parseEther("1") = 10^18`, throw (`none`) if nothing is left,
and hand the survivors to `storage.addAccountsToTrack` with limit
`LIMIT_ACCOUNTS_TO_TRACK`; otherwise keep the stored tracked set. -/
def _initAccounts (blacklist : List Addr) (trackStoreContents : List Addr)
    (candidates : List Addr) (getUserConfig : Addr → Option UserConfig) :
    Option BootstrapResult :=
  if trackStoreContents.length < LIMIT_ACCOUNTS_TO_TRACK then
    let accountsData : List (Addr × Option UserConfig) :=
      candidates.map (fun address => (address, getUserConfig address))
    let withHF : List AccountData :=
      accountsData.filterMap (fun p => p.2.map (fun c => { toUserConfig := c, address := p.1 }))
    let sorted :=
      (withHF.mergeSort hfAscending).filter
        (fun acc => decide (100000000000000 < acc.totalDebtETH) &&
                    decide (1000000000000000000 < acc.healthFactor))
    if sorted.isEmpty then none
    else
      let r := addAccountsToTrack blacklist trackStoreContents
        (sorted.map (fun s => s.address)) LIMIT_ACCOUNTS_TO_TRACK
      some { store := r.1, tracked := r.2 }
  else
    some { store := trackStoreContents, tracked := trackStoreContents }

/-! ### Market catalog and balances (`contract.service.ts`) -/

structure MarketConfig where
  address : Addr
  symbol : String
  decimals : Nat
  liquidationThreshold : Nat
  liquidationBonus : Nat
  aTokenAddress : Addr
  ethPrice : Nat
deriving DecidableEq

/-- `getUserReserveData` joined with its market, as in `_getUserBalances`. -/
structure BalanceWithMarket where
  market : MarketConfig
  currentATokenBalance : Nat
  currentStableDebt : Nat
  currentVariableDebt : Nat
deriving DecidableEq

/-! ### Debt / collateral market selection (`_selectDebtToken`, `_selectCollateralToken`) -/

/-- The per-leg amount computed inside `_selectDebtToken`:
`b.currentVariableDebt.mul(b.market.ethPrice).div(BigNumber.from(10).pow(b.market.decimals))`. -/
def debtSelectorAmount (b : BalanceWithMarket) : Nat :=
  b.currentVariableDebt * b.market.ethPrice / 10 ^ b.market.decimals

/-- The per-leg amount computed inside `_selectCollateralToken`:
`b.currentATokenBalance.mul(ethPrice).div(10^decimals).mul(liquidationBonus)`
(note: the integer division happens before the bonus multiplication). -/
def collateralSelectorAmount (b : BalanceWithMarket) : Nat :=
  b.currentATokenBalance * b.market.ethPrice / 10 ^ b.market.decimals * b.market.liquidationBonus

/-- The selection sort comparator `(b1, b2) => (b1.amount.lt(b2.amount) ? 1 : -1)`:
`b1` sorts no later than `b2` iff the comparator is non-positive, i.e. iff
`b2.amount ≤ b1.amount` (descending by amount). -/
def selectorDescending (p1 p2 : Addr × Nat) : Bool := decide (p2.2 ≤ p1.2)

/-- `UsersService._selectDebtToken`: map each leg to
`{selector: market.address, amount: debtSelectorAmount}`, sort descending by
amount, take the head's selector and `find` the first leg with that market
address.  `none` models the `undefined` destructuring on an empty list. -/
def _selectDebtToken (balances : List BalanceWithMarket) : Option BalanceWithMarket :=
  match (balances.map (fun b => (b.market.address, debtSelectorAmount b))).mergeSort
      selectorDescending with
  | [] => none
  | sel :: _ => balances.find? (fun b => b.market.address == sel.1)

/-- `UsersService._selectCollateralToken`: same pipeline with the collateral amount. -/
def _selectCollateralToken (balances : List BalanceWithMarket) : Option BalanceWithMarket :=
  match (balances.map (fun b => (b.market.address, collateralSelectorAmount b))).mergeSort
      selectorDescending with
  | [] => none
  | sel :: _ => balances.find? (fun b => b.market.address == sel.1)

/-! ### Liquidation plan (`UsersService._liquidateAccount`)

The pure arithmetic of `_liquidateAccount` (market refresh, transaction
submission and the diagnostic file writes are external effects; the
floating-point gas-price computation `gasFromdebtETH` is IEEE-754 double
arithmetic and is outside this embedding). -/

structure LiquidationPlan where
  borrower : Addr
  repayBalance : BalanceWithMarket
  collateralBalance : BalanceWithMarket
  debtAmount : Nat
  debtETH : Nat
  amountRewarded : Nat
deriving DecidableEq

/-- The integer arithmetic of `UsersService._liquidateAccount`:
* `debtAmount = repayBalance.currentVariableDebt.div(2)`;
* `debtETH = debtAmount.mul(repay ethPrice).div(10^repay decimals)`;
* `amountRewarded = debtAmount.mul(repay ethPrice).mul(collateral DECIMALS)
   .div(repay DECIMALS).div(collateral ethPrice).mul(collateral liquidationBonus)
   .div(10000)` — note the source multiplies and divides by the **raw**
  `decimals` fields here, not by `10^decimals`. -/
def _liquidateAccount (accountAddress : Addr) (balances : List BalanceWithMarket) :
    Option LiquidationPlan :=
  match _selectDebtToken balances, _selectCollateralToken balances with
  | some repayBalance, some collateralBalance =>
    let debtAmount := repayBalance.currentVariableDebt / 2
    let debtETH := debtAmount * repayBalance.market.ethPrice / 10 ^ repayBalance.market.decimals
    let amountRewarded :=
      debtAmount * repayBalance.market.ethPrice * collateralBalance.market.decimals
        / repayBalance.market.decimals / collateralBalance.market.ethPrice
        * collateralBalance.market.liquidationBonus / 10000
    some { borrower := accountAddress, repayBalance := repayBalance,
           collateralBalance := collateralBalance, debtAmount := debtAmount,
           debtETH := debtETH, amountRewarded := amountRewarded }
  | _, _ => none

/-- Modelled from the spec (section 4.5, "Estimated reward"), for comparison
with the source's `amountRewarded`:
`reward = repay_amount · price(debt) · 10^decimals(coll) / 10^decimals(debt)
          / price(coll) · liquidation_bonus / 10000`,
read left to right in integer arithmetic. -/
def specEstimatedReward (repayAmount priceDebt decimalsDebt priceColl decimalsColl bonus : Nat) :
    Nat :=
  repayAmount * priceDebt * 10 ^ decimalsColl / 10 ^ decimalsDebt / priceColl * bonus / 10000

/-! ### Run loop (`UsersService._loop`) -/

/-- `ethers.utils.parseEther("1")`: the liquidation boundary. -/
def LIQUIDATION_HF : Nat := 1000000000000000000

/-- `ethers.utils.parseEther("1.01")`: the untracking upper bound. -/
def UPPER_BOUND_HF : Nat := 1010000000000000000

/-- The record built for each tracked address inside `_loop`:
`{ hf: userData?.healthFactor, toRemove, address }`. -/
structure LoopEntry where
  hf : Option Nat
  toRemove : Bool
  address : Addr
deriving DecidableEq

/-- The full per-address outcome of one `_loop` body: the entry returned to
the array, whether `_liquidateAccount` was dispatched, and whether
`storage.removeTrackedAccount` was called. -/
structure AccountOutcome where
  entry : LoopEntry
  dispatchedLiquidation : Bool
  persistedRemoval : Bool
deriving DecidableEq

/-- The body of `_loop`'s `map` for one tracked address, over the observed
`getUserConfig` result (`none` models the swallowed RPC error):
* `!userData?.healthFactor` → remove (defensive), no dispatch;
* `healthFactor ≤ parseEther("1")` → dispatch `_liquidateAccount`, remove;
* `healthFactor > parseEther("1.01")` → remove (healed past the band);
* otherwise keep the entry.
`storage.removeTrackedAccount([accountAddress])` is called exactly when
`toRemove` is set. -/
def processAccount (accountAddress : Addr) (userData : Option Nat) : AccountOutcome :=
  match userData with
  | none =>
    { entry := { hf := none, toRemove := true, address := accountAddress },
      dispatchedLiquidation := false, persistedRemoval := true }
  | some healthFactor =>
    if healthFactor ≤ LIQUIDATION_HF then
      { entry := { hf := some healthFactor, toRemove := true, address := accountAddress },
        dispatchedLiquidation := true, persistedRemoval := true }
    else if UPPER_BOUND_HF < healthFactor then
      { entry := { hf := some healthFactor, toRemove := true, address := accountAddress },
        dispatchedLiquidation := false, persistedRemoval := true }
    else
      { entry := { hf := some healthFactor, toRemove := false, address := accountAddress },
        dispatchedLiquidation := false, persistedRemoval := false }

/-- The health factor stored in a retained entry (`acc.hf`); retained entries
always carry `some`, so the default never matters on that path. -/
def entryHf (e : LoopEntry) : Nat := e.hf.getD 0

/-- The retained-list sort comparator
`(acc1, acc2) => (acc1.hf.gt(acc2.hf) ? 1 : -1)`: `acc1` sorts no later than
`acc2` iff `acc1.hf ≤ acc2.hf` (ascending by health factor). -/
def hfEntryAscending (e1 e2 : LoopEntry) : Bool := decide (entryHf e1 ≤ entryHf e2)

/-- The entry list retained at the end of one `_loop` iteration:
`accs.filter(acc => !acc.toRemove).sort((acc1, acc2) => acc1.hf.gt(acc2.hf) ? 1 : -1)`,
where `accs` maps each tracked address through the loop body. -/
def loopRetained (getUserConfig : Addr → Option Nat) (tracked : List Addr) : List LoopEntry :=
  ((tracked.map (fun a => (processAccount a (getUserConfig a)).entry)).filter
      (fun e => !e.toRemove)).mergeSort hfEntryAscending

/-- `UsersService._loop`: the new `this.tracked` after one iteration, i.e. the
addresses of the retained entries (`.map(acc => acc.address)`). -/
def _loop (getUserConfig : Addr → Option Nat) (tracked : List Addr) : List Addr :=
  (loopRetained getUserConfig tracked).map (fun e => e.address)

/-! ### Mempool watchdog (`mempoolTracking`) -/

/-- The fields destructured from `myTx` and from each observed pending
transaction.  `accessList` is only ever copied verbatim, so its payload is
modelled as an opaque string. -/
structure TxFields where
  toAddr : Addr
  fromAddr : Addr
  nonce : Nat
  gasLimit : Nat
  gasPrice : Nat
  data : String
  value : Nat
  chainId : Nat
  txType : Nat
  accessList : String
deriving DecidableEq

/-- JavaScript `hay.includes(needle)`: `needle` occurs contiguously in `hay`. -/
def jsIncludes (hay needle : String) : Bool :=
  hay.toList.tails.any (fun suf => needle.toList.isPrefixOf suf)

/-- JavaScript `s.toLowerCase()` on the ASCII addresses in play: lower-case
every character. -/
def jsToLower (s : String) : String := ⟨s.toList.map Char.toLower⟩

/-- `borrowerAddress.slice(2, borrowerAddress.length)`: the borrower address
without its `0x` prefix, the substring the watchdog greps the mempool for. -/
def trackOf (borrowerAddress : Addr) : String := borrowerAddress.drop 2

/-- The watchdog's competing-transaction test:
`transaction?.from?.toLowerCase() !== myPublicAddr.toLowerCase()
 && transaction?.data?.includes(track)`. -/
def isCompetingLiquidation (myPublicAddr track : String) (tx : TxFields) : Bool :=
  (jsToLower tx.fromAddr != jsToLower myPublicAddr) && jsIncludes tx.data track

/-- The watchdog's mutable state: `myGasCost` and the `editedTxHash` array. -/
structure MempoolState where
  myGasCost : Nat
  editedTxHash : List String
deriving DecidableEq

/-- One `pending` event of `mempoolTracking`, for an observed transaction that
resolved to `observed`: if it is a competing liquidation with
`transaction.gasPrice.gt(myGasCost)`, build a replacement from the
destructured fields of `myTx` with `gasPrice = competitor * 11 / 10`,
broadcast it (its hash, produced by the provider, is the `newHash`
argument), append the hash to `editedTxHash` and update `myGasCost`;
otherwise leave the state unchanged and send nothing. -/
def mempoolStep (myTx : TxFields) (myPublicAddr track : String)
    (st : MempoolState) (observed : TxFields) (newHash : String) :
    MempoolState × Option TxFields :=
  if isCompetingLiquidation myPublicAddr track observed then
    if st.myGasCost < observed.gasPrice then
      let increasedGasCost := observed.gasPrice * 11 / 10
      let newTx : TxFields := { myTx with gasPrice := increasedGasCost }
      ({ myGasCost := increasedGasCost, editedTxHash := st.editedTxHash ++ [newHash] },
       some newTx)
    else
      (st, none)
  else
    (st, none)

/-! ### Concrete fixtures

The spec's S2 scenario: market M1 holds the debt (6-decimals token, price
`1e18`, variable debt `1000·1e6`), market M2 the collateral (18-decimals
token, price `1e18`, bonus `10750`, aToken balance `2000·1e18`). -/

def s2m1 : MarketConfig :=
  { address := "0xm1", symbol := "USDC", decimals := 6, liquidationThreshold := 8500,
    liquidationBonus := 10500, aTokenAddress := "0xam1", ethPrice := 10 ^ 18 }

def s2m2 : MarketConfig :=
  { address := "0xm2", symbol := "WETH", decimals := 18, liquidationThreshold := 8250,
    liquidationBonus := 10750, aTokenAddress := "0xam2", ethPrice := 10 ^ 18 }

def s2b1 : BalanceWithMarket :=
  { market := s2m1, currentATokenBalance := 0, currentStableDebt := 0,
    currentVariableDebt := 1000 * 10 ^ 6 }

def s2b2 : BalanceWithMarket :=
  { market := s2m2, currentATokenBalance := 2000 * 10 ^ 18, currentStableDebt := 0,
    currentVariableDebt := 0 }

def s2balances : List BalanceWithMarket := [s2b1, s2b2]

/-- The plan `_liquidateAccount` computes on the S2 balances. -/
def s2plan : LiquidationPlan :=
  { borrower := "0xborrower", repayBalance := s2b1, collateralBalance := s2b2,
    debtAmount := 500000000, debtETH := 500000000000000000000,
    amountRewarded := 1612500000 }

/-- Two markets with identical numeric parameters but distinct addresses:
every selection score ties, and only the position in the input list decides. -/

def tieMarketA : MarketConfig :=
  { address := "0xaa", symbol := "TKA", decimals := 0, liquidationThreshold := 8000,
    liquidationBonus := 10500, aTokenAddress := "0xaaa", ethPrice := 1 }

def tieMarketB : MarketConfig :=
  { address := "0xbb", symbol := "TKB", decimals := 0, liquidationThreshold := 8000,
    liquidationBonus := 10500, aTokenAddress := "0xabb", ethPrice := 1 }

def tieBalA : BalanceWithMarket :=
  { market := tieMarketA, currentATokenBalance := 7, currentStableDebt := 0,
    currentVariableDebt := 5 }

def tieBalB : BalanceWithMarket :=
  { market := tieMarketB, currentATokenBalance := 7, currentStableDebt := 0,
    currentVariableDebt := 5 }

/-! Bootstrap fixtures for the size-cap claim: 199 addresses already tracked
(one short of the limit, so the seeding branch runs) and two fresh eligible
candidates. -/

def capPrior199 : List Addr := (List.range 199).map (fun i => toString i)

def capCandidates2 : List Addr := ["0xc1", "0xc2"]

/-- An oracle making every candidate eligible:
`totalDebtETH = 10^18 > 10^14` and `healthFactor = 10^18 + 5 > 10^18`. -/
def capOracle : Addr → Option UserConfig := fun _ =>
  some { totalCollateralETH := 2 * 10 ^ 18, totalDebtETH := 10 ^ 18,
         availableBorrowETH := 0, currentLiquidationThreshold := 8000,
         healthFactor := 10 ^ 18 + 5 }

/-- A one-candidate oracle instance used to witness the bootstrap size bound. -/
def smallOracle : Addr → Option UserConfig := fun _ =>
  some { totalCollateralETH := 3 * 10 ^ 18, totalDebtETH := 2 * 10 ^ 18,
         availableBorrowETH := 0, currentLiquidationThreshold := 8000,
         healthFactor := 10 ^ 18 + 7 }

/-! Mempool watchdog fixtures: our submitted transaction at 30 gwei and a
competing pending transaction at 50 gwei whose calldata contains the
borrower's address without the `0x` prefix. -/

def origTx : TxFields :=
  { toAddr := "0xliquidatorwrapper", fromAddr := "0xme", nonce := 7, gasLimit := 28000000,
    gasPrice := 30, data := "0xfeedborrowerfeed", value := 0, chainId := 137, txType := 0,
    accessList := "" }

def competitorTx : TxFields :=
  { toAddr := "0xpool", fromAddr := "0xrival", nonce := 3, gasLimit := 1000000,
    gasPrice := 50, data := "0xcafeborrowerbeef", value := 0, chainId := 137, txType := 0,
    accessList := "" }

/-! ### Helper lemmas about the sort model -/

theorem selectorDescending_trans : ∀ a b c : Addr × Nat,
    selectorDescending a b = true → selectorDescending b c = true →
    selectorDescending a c = true := by
  intro a b c hab hbc
  simp only [selectorDescending, decide_eq_true_eq] at hab hbc ⊢
  omega

theorem selectorDescending_total : ∀ a b : Addr × Nat,
    (selectorDescending a b || selectorDescending b a) = true := by
  intro a b
  simp only [selectorDescending, Bool.or_eq_true, decide_eq_true_eq]
  omega

/-- The head of the descending merge sort dominates every element of the input. -/
theorem mergeSort_desc_head_max (l : List (Addr × Nat)) (sel : Addr × Nat)
    (rest : List (Addr × Nat)) (h : l.mergeSort selectorDescending = sel :: rest) :
    sel ∈ l ∧ ∀ p ∈ l, p.2 ≤ sel.2 := by
  have hmem : sel ∈ l := by
    have : sel ∈ l.mergeSort selectorDescending := by
      rw [h]; exact List.mem_cons_self _ _
    exact List.mem_mergeSort.1 this
  refine ⟨hmem, ?_⟩
  intro p hp
  have hp2 : p ∈ sel :: rest := by
    rw [← h]; exact List.mem_mergeSort.2 hp
  rcases List.mem_cons.1 hp2 with heq | htail
  · subst heq; exact le_refl _
  · have hs := List.sorted_mergeSort selectorDescending_trans selectorDescending_total l
    rw [h] at hs
    have := (List.pairwise_cons.1 hs).1 p htail
    simpa [selectorDescending] using this

/-- Each selection pipeline returns a leg of the input whose score is maximal,
provided the market addresses are pairwise distinct. -/
theorem selectPipeline_max (score : BalanceWithMarket → Nat)
    (balances : List BalanceWithMarket)
    (hnd : (balances.map (fun b => b.market.address)).Nodup) (db : BalanceWithMarket)
    (h : (match (balances.map (fun b => (b.market.address, score b))).mergeSort
            selectorDescending with
          | [] => none
          | sel :: _ => balances.find? (fun b => b.market.address == sel.1)) = some db) :
    db ∈ balances ∧ ∀ b ∈ balances, score b ≤ score db := by
  cases hsort : (balances.map (fun b => (b.market.address, score b))).mergeSort
      selectorDescending with
  | nil => rw [hsort] at h; exact absurd h (by simp)
  | cons sel rest =>
    rw [hsort] at h
    obtain ⟨hselmem, hall⟩ := mergeSort_desc_head_max _ sel rest hsort
    have hdbmem : db ∈ balances := List.mem_of_find?_eq_some h
    have hdbaddr : db.market.address = sel.1 := by
      have := List.find?_some h
      simpa using this
    obtain ⟨b0, hb0mem, hb0eq⟩ := List.mem_map.1 hselmem
    have hb0addr : b0.market.address = sel.1 := congrArg Prod.fst hb0eq
    have hb0score : score b0 = sel.2 := congrArg Prod.snd hb0eq
    have hdb0 : db = b0 :=
      List.inj_on_of_nodup_map hnd hdbmem hb0mem (by rw [hdbaddr, hb0addr])
    refine ⟨hdbmem, ?_⟩
    intro b hb
    have hble : score b ≤ sel.2 :=
      hall (b.market.address, score b) (List.mem_map_of_mem _ hb)
    rw [hdb0, hb0score]
    exact hble

theorem hfEntryAscending_trans : ∀ a b c : LoopEntry,
    hfEntryAscending a b = true → hfEntryAscending b c = true →
    hfEntryAscending a c = true := by
  intro a b c hab hbc
  simp only [hfEntryAscending, decide_eq_true_eq] at hab hbc ⊢
  omega

theorem hfEntryAscending_total : ∀ a b : LoopEntry,
    (hfEntryAscending a b || hfEntryAscending b a) = true := by
  intro a b
  simp only [hfEntryAscending, Bool.or_eq_true, decide_eq_true_eq]
  omega

/-- The loop body always tags the entry with the processed address. -/
theorem processAccount_entry_address (a : Addr) (d : Option Nat) :
    ((processAccount a d).entry).address = a := by
  cases d with
  | none => rfl
  | some hf =>
    by_cases h1 : hf ≤ LIQUIDATION_HF
    · simp [processAccount, h1]
    · by_cases h2 : UPPER_BOUND_HF < hf
      · simp [processAccount, h1, h2]
      · simp [processAccount, h1, h2]

/-- An address whose loop body decided removal is absent from the new tracked
list. -/
theorem not_mem_loop_of_toRemove (getUserConfig : Addr → Option Nat)
    (tracked : List Addr) (a : Addr)
    (hrem : ((processAccount a (getUserConfig a)).entry).toRemove = true) :
    a ∉ _loop getUserConfig tracked := by
  intro hmem2
  unfold _loop loopRetained at hmem2
  obtain ⟨e, he, hea⟩ := List.mem_map.1 hmem2
  have he2 := List.mem_mergeSort.1 he
  obtain ⟨hein, hkeep⟩ := List.mem_filter.1 he2
  obtain ⟨a2, ha2mem, ha2eq⟩ := List.mem_map.1 hein
  have ha2 : a2 = a := by
    rw [← ha2eq] at hea
    rw [processAccount_entry_address] at hea
    exact hea
  subst ha2
  rw [ha2eq] at hrem
  rw [hrem] at hkeep
  simp at hkeep

/-- An address whose loop body kept the entry is a member of the new tracked
list. -/
theorem mem_loop_of_keep (getUserConfig : Addr → Option Nat)
    (tracked : List Addr) (a : Addr) (hmem : a ∈ tracked)
    (hkeep : ((processAccount a (getUserConfig a)).entry).toRemove = false) :
    a ∈ _loop getUserConfig tracked := by
  unfold _loop loopRetained
  refine List.mem_map.2 ⟨(processAccount a (getUserConfig a)).entry, ?_,
    processAccount_entry_address a (getUserConfig a)⟩
  refine List.mem_mergeSort.2 ?_
  refine List.mem_filter.2 ⟨List.mem_map_of_mem _ hmem, ?_⟩
  rw [hkeep]
  rfl

/-- `SADD` grows the set by at most the number of added elements. -/
theorem foldl_sadd_length_le (xs : List Addr) : ∀ s : List Addr,
    (xs.foldl (fun t x => if t.contains x then t else t ++ [x]) s).length ≤
      s.length + xs.length := by
  induction xs with
  | nil => intro s; simp
  | cons x xs ih =>
    intro s
    simp only [List.foldl_cons]
    by_cases hx : s.contains x
    · rw [if_pos hx]
      have := ih s
      simp only [List.length_cons]
      omega
    · rw [if_neg hx]
      have := ih (s ++ [x])
      simp only [List.length_append, List.length_cons, List.length_nil] at this ⊢
      omega

theorem saddSet_length_le (s xs : List Addr) :
    (saddSet s xs).length ≤ s.length + xs.length :=
  foldl_sadd_length_le xs s

theorem processAccount_keep (a : Addr) (hf : Nat)
    (h1 : LIQUIDATION_HF < hf) (h2 : hf ≤ UPPER_BOUND_HF) :
    processAccount a (some hf) =
      { entry := { hf := some hf, toRemove := false, address := a },
        dispatchedLiquidation := false, persistedRemoval := false } := by
  have h1' : ¬ hf ≤ LIQUIDATION_HF := by omega
  have h2' : ¬ UPPER_BOUND_HF < hf := by omega
  simp [processAccount, h1', h2']

theorem processAccount_above (a : Addr) (hf : Nat) (h2 : UPPER_BOUND_HF < hf) :
    processAccount a (some hf) =
      { entry := { hf := some hf, toRemove := true, address := a },
        dispatchedLiquidation := false, persistedRemoval := true } := by
  have hlt : LIQUIDATION_HF < UPPER_BOUND_HF := by decide
  have h1' : ¬ hf ≤ LIQUIDATION_HF := by omega
  simp [processAccount, h1', h2]

/-- Claim C8: in every run-loop iteration, an entry observed with
`1e18 < hf ≤ 1.01e18` stays in the tracked list with its latest health factor
recorded on the retained entry, while an entry observed with `hf > 1.01e18`
is removed from the tracked list within that iteration. -/
theorem loop_hysteresis_band (getUserConfig : Addr → Option Nat) (tracked : List Addr)
    (a : Addr) (hf : Nat) (hmem : a ∈ tracked) (hcfg : getUserConfig a = some hf) :
    (LIQUIDATION_HF < hf → hf ≤ UPPER_BOUND_HF →
      (processAccount a (getUserConfig a)).entry =
        { hf := some hf, toRemove := false, address := a } ∧
      a ∈ _loop getUserConfig tracked) ∧
    (UPPER_BOUND_HF < hf → a ∉ _loop getUserConfig tracked) := by
  constructor
  · intro h1 h2
    have hp := processAccount_keep a hf h1 h2
    constructor
    · rw [hcfg, hp]
    · apply mem_loop_of_keep _ _ _ hmem
      rw [hcfg, hp]
  · intro h2
    apply not_mem_loop_of_toRemove
    rw [hcfg, processAccount_above a hf h2]

/-- Witness for `loop_hysteresis_band` at `hf = 1.005e18` inside the band. -/
theorem loop_hysteresis_band_witness :
    (processAccount "0xa" ((fun _ => some 1005000000000000000) "0xa")).entry =
      { hf := some 1005000000000000000, toRemove := false, address := "0xa" } ∧
    "0xa" ∈ _loop (fun _ => some 1005000000000000000) ["0xa"] :=
  (loop_hysteresis_band (fun _ => some 1005000000000000000) ["0xa"] "0xa"
    1005000000000000000 (by simp) rfl).1 (by decide) (by decide)

/-- Claim C9: a tracked address whose account-summary read fails (the oracle
returns `none`) is removed defensively: the removal is persisted to the store,
no liquidation is dispatched for it, and it is absent from the new tracked
list; the loop body is a total function, so the iteration survives the entry. -/
theorem loop_defensive_removal_on_none (getUserConfig : Addr → Option Nat)
    (tracked : List Addr) (a : Addr) (hmem : a ∈ tracked)
    (hcfg : getUserConfig a = none) :
    (processAccount a (getUserConfig a)).persistedRemoval = true ∧
    (processAccount a (getUserConfig a)).dispatchedLiquidation = false ∧
    a ∉ _loop getUserConfig tracked := by
  refine ⟨by rw [hcfg]; rfl, by rw [hcfg]; rfl, ?_⟩
  apply not_mem_loop_of_toRemove
  rw [hcfg]
  rfl

/-- Witness for `loop_defensive_removal_on_none` on a one-address tracked set. -/
theorem loop_defensive_removal_on_none_witness :
    (processAccount "0xdead" ((fun _ => none) "0xdead")).persistedRemoval = true ∧
    (processAccount "0xdead" ((fun _ => none) "0xdead")).dispatchedLiquidation = false ∧
    "0xdead" ∉ _loop (fun _ => none) ["0xdead"] :=
  loop_defensive_removal_on_none (fun _ => none) ["0xdead"] "0xdead" (by simp) rfl

/-- Claim C10: after every run-loop iteration the retained entries are sorted
in ascending order of the health factors observed during that iteration, and
the new in-memory tracked list is exactly their addresses in that order. -/
theorem loop_retained_sorted_ascending (getUserConfig : Addr → Option Nat)
    (tracked : List Addr) :
    List.Sorted (fun e1 e2 => entryHf e1 ≤ entryHf e2)
      (loopRetained getUserConfig tracked) ∧
    _loop getUserConfig tracked = (loopRetained getUserConfig tracked).map
      (fun e => e.address) := by
  constructor
  · have h := List.sorted_mergeSort hfEntryAscending_trans hfEntryAscending_total
      ((tracked.map (fun a => (processAccount a (getUserConfig a)).entry)).filter
        (fun e => !e.toRemove))
    unfold loopRetained
    exact h.imp (fun hab => by simpa [hfEntryAscending] using hab)
  · rfl

/-- Claim C1 (evidence of the code bug): the `async` predicate inside
`addAccountsToTrack` returns a `Promise`, which the synchronous `filter`
treats as truthy, so a blacklisted candidate is returned and `SADD`ed into
the durable tracked set instead of being excluded. -/
theorem addAccountsToTrack_blacklist_bug :
    isBlackListed ["0xbad"] "0xbad" = true ∧
    (addAccountsToTrack ["0xbad"] [] ["0xbad"] LIMIT_ACCOUNTS_TO_TRACK).2 = ["0xbad"] ∧
    "0xbad" ∈ (addAccountsToTrack ["0xbad"] [] ["0xbad"] LIMIT_ACCOUNTS_TO_TRACK).1 := by
  decide

set_option maxRecDepth 100000 in
unseal List.merge List.mergeSort in
/-- Claim C2, counterexample: with 199 addresses already tracked (fewer than
`K = 200`) and two fresh eligible candidates, bootstrap adds both candidates,
so the duplicate-free durable tracked set ends with 201 > 200 members. -/
theorem initAccounts_cap_cex :
    capPrior199.length < LIMIT_ACCOUNTS_TO_TRACK ∧
    Option.map (fun r => (r.store.length, decide r.store.Nodup))
      (_initAccounts [] capPrior199 capCandidates2 capOracle) = some (201, true) ∧
    ¬ (201 ≤ LIMIT_ACCOUNTS_TO_TRACK) := by
  refine ⟨by decide, by decide, by decide⟩

/-- Claim C2, amended: when fewer than `K` addresses are tracked, bootstrap
hands the eligible candidates to `addAccountsToTrack` with limit `K` (not
`K − |Tracked|`): the in-memory tracked list it returns has at most `K`
members, and the durable tracked set ends with at most `|prior| + K` members
(which can exceed `K`, as `initAccounts_cap_cex` shows). -/
theorem initAccounts_size_bound (blacklist trackStoreContents candidates : List Addr)
    (getUserConfig : Addr → Option UserConfig) (r : BootstrapResult)
    (hlt : trackStoreContents.length < LIMIT_ACCOUNTS_TO_TRACK)
    (h : _initAccounts blacklist trackStoreContents candidates getUserConfig = some r) :
    r.tracked.length ≤ LIMIT_ACCOUNTS_TO_TRACK ∧
    r.store.length ≤ trackStoreContents.length + LIMIT_ACCOUNTS_TO_TRACK := by
  unfold _initAccounts at h
  rw [if_pos hlt] at h
  dsimp only at h
  split at h
  · exact absurd h (by simp)
  · simp only [Option.some.injEq] at h
    subst h
    constructor
    · exact List.length_take_le _ _
    · exact le_trans (saddSet_length_le _ _)
        (Nat.add_le_add_left (List.length_take_le _ _) _)

unseal List.merge List.mergeSort in
/-- Witness for `initAccounts_size_bound`: an empty prior store and a single
eligible candidate. -/
theorem initAccounts_size_bound_witness :
    ([] : List Addr).length < LIMIT_ACCOUNTS_TO_TRACK ∧
    _initAccounts [] [] ["0xw"] smallOracle = some { store := ["0xw"], tracked := ["0xw"] } ∧
    ((["0xw"] : List Addr).length ≤ LIMIT_ACCOUNTS_TO_TRACK ∧
     (["0xw"] : List Addr).length ≤ ([] : List Addr).length + LIMIT_ACCOUNTS_TO_TRACK) :=
  ⟨by decide, rfl,
   initAccounts_size_bound [] [] ["0xw"] smallOracle
     { store := ["0xw"], tracked := ["0xw"] } (by decide) rfl⟩

/-- Claim C3: the repay amount of every liquidation plan equals the chosen
debt leg's current variable debt divided by two with integer division
(`currentVariableDebt.div(2)`), hence never exceeds half the debt. -/
theorem liquidate_repay_half_debt (accountAddress : Addr)
    (balances : List BalanceWithMarket) (rb : BalanceWithMarket)
    (plan : LiquidationPlan)
    (hsel : _selectDebtToken balances = some rb)
    (hplan : _liquidateAccount accountAddress balances = some plan) :
    plan.debtAmount = rb.currentVariableDebt / 2 ∧
    plan.debtAmount ≤ rb.currentVariableDebt / 2 := by
  unfold _liquidateAccount at hplan
  rw [hsel] at hplan
  cases hc : _selectCollateralToken balances with
  | none => rw [hc] at hplan; exact absurd hplan (by simp)
  | some cb =>
    rw [hc] at hplan
    simp only [Option.some.injEq] at hplan
    subst hplan
    exact ⟨rfl, le_refl _⟩

unseal List.merge List.mergeSort in
/-- Witness for `liquidate_repay_half_debt` on the S2 balances:
`repay = 1000·1e6 / 2 = 500·1e6`. -/
theorem liquidate_repay_half_debt_witness :
    _selectDebtToken s2balances = some s2b1 ∧
    _liquidateAccount "0xborrower" s2balances = some s2plan ∧
    (s2plan.debtAmount = s2b1.currentVariableDebt / 2 ∧
     s2plan.debtAmount ≤ s2b1.currentVariableDebt / 2) :=
  ⟨rfl, rfl, liquidate_repay_half_debt "0xborrower" s2balances s2b1 s2plan rfl rfl⟩

unseal List.merge List.mergeSort in
/-- Claim C4 (evidence of the code bug): on the spec's S2 inputs the source's
`amountRewarded` chain multiplies by the raw `decimals` fields (18 and 6)
where the spec formula uses `10^decimals`, so the code computes
`1612500000` (≈ 1.6e-9 tokens in 18-decimals units) while the spec formula
yields `537.5e18`. -/
theorem amountRewarded_decimals_bug :
    Option.map (fun p => p.amountRewarded) (_liquidateAccount "0xborrower" s2balances) =
      some 1612500000 ∧
    specEstimatedReward 500000000 (10 ^ 18) 6 (10 ^ 18) 18 10750 =
      537500000000000000000 ∧
    (1612500000 : Nat) ≠ 537500000000000000000 := by
  refine ⟨rfl, by decide, by decide⟩

unseal String.ltb List.merge List.mergeSort in
/-- Claim C5, counterexample: two legs with identical scores and distinct
market addresses.  The selection depends only on the input order — from
`[B, A]` it returns `B` even though `A`'s address is lexicographically
smaller, and permuting the list changes the selection for both the debt and
the collateral pipeline. -/
theorem select_token_tie_cex :
    debtSelectorAmount tieBalA = debtSelectorAmount tieBalB ∧
    collateralSelectorAmount tieBalA = collateralSelectorAmount tieBalB ∧
    tieBalA.market.address < tieBalB.market.address ∧
    _selectDebtToken [tieBalB, tieBalA] = some tieBalB ∧
    _selectDebtToken [tieBalA, tieBalB] = some tieBalA ∧
    _selectCollateralToken [tieBalB, tieBalA] = some tieBalB ∧
    _selectCollateralToken [tieBalA, tieBalB] = some tieBalA ∧
    tieBalB ≠ tieBalA := by
  refine ⟨rfl, rfl, by decide, rfl, rfl, rfl, rfl, by decide⟩

/-- Claim C5, amended: over distinct market addresses both selections return
a leg of the list achieving the maximal score (debt:
`variable_debt · price / 10^decimals`; collateral:
`a_token_balance · price / 10^decimals · liquidation_bonus`); ties are broken
by position in the input list, not by address, so the choice is not
invariant under permutations that reorder tied legs. -/
theorem select_tokens_maximal_score (balances : List BalanceWithMarket)
    (hnd : (balances.map (fun b => b.market.address)).Nodup)
    (db cb : BalanceWithMarket)
    (hd : _selectDebtToken balances = some db)
    (hc : _selectCollateralToken balances = some cb) :
    (db ∈ balances ∧ ∀ b ∈ balances, debtSelectorAmount b ≤ debtSelectorAmount db) ∧
    (cb ∈ balances ∧ ∀ b ∈ balances,
      collateralSelectorAmount b ≤ collateralSelectorAmount cb) :=
  ⟨selectPipeline_max debtSelectorAmount balances hnd db hd,
   selectPipeline_max collateralSelectorAmount balances hnd cb hc⟩

unseal List.merge List.mergeSort in
/-- Witness for `select_tokens_maximal_score` on the S2 balances. -/
theorem select_tokens_maximal_score_witness :
    (s2balances.map (fun b => b.market.address)).Nodup ∧
    _selectDebtToken s2balances = some s2b1 ∧
    _selectCollateralToken s2balances = some s2b2 ∧
    ((s2b1 ∈ s2balances ∧
      ∀ b ∈ s2balances, debtSelectorAmount b ≤ debtSelectorAmount s2b1) ∧
     (s2b2 ∈ s2balances ∧
      ∀ b ∈ s2balances, collateralSelectorAmount b ≤ collateralSelectorAmount s2b2)) :=
  ⟨by decide, rfl, rfl,
   select_tokens_maximal_score s2balances (by decide) s2b1 s2b2 rfl rfl⟩

/-- Claim C7: on observing a competing pending transaction (a different
sender whose calldata contains the borrower address), the watchdog reacts
exactly when the competitor's gas price strictly exceeds ours: it rebuilds
the original transaction — same to, from, nonce, gas limit, data, value,
chain id, type and access list — with gas price `⌊competitor · 11 / 10⌋`,
appends the broadcast hash to `editedTxHash` and updates `myGasCost`;
otherwise it sends nothing and leaves the state unchanged. -/
theorem mempoolTracking_bump (myTx : TxFields) (myPublicAddr track : String)
    (st : MempoolState) (observed : TxFields) (newHash : String)
    (hcomp : isCompetingLiquidation myPublicAddr track observed = true) :
    (st.myGasCost < observed.gasPrice →
      mempoolStep myTx myPublicAddr track st observed newHash =
        ({ myGasCost := observed.gasPrice * 11 / 10,
           editedTxHash := st.editedTxHash ++ [newHash] },
         some { myTx with gasPrice := observed.gasPrice * 11 / 10 })) ∧
    (¬ st.myGasCost < observed.gasPrice →
      mempoolStep myTx myPublicAddr track st observed newHash = (st, none)) := by
  unfold mempoolStep
  rw [if_pos hcomp]
  constructor
  · intro hgt
    rw [if_pos hgt]
  · intro hle
    rw [if_neg hle]

/-- Witness for `mempoolTracking_bump`: competitor at 50 gwei against our
30 gwei produces a 55 gwei replacement (the spec's S5 numbers). -/
theorem mempoolTracking_bump_witness :
    isCompetingLiquidation "0x00" (trackOf "0xborrower") competitorTx = true ∧
    mempoolStep origTx "0x00" (trackOf "0xborrower")
        { myGasCost := 30, editedTxHash := ["0xhash0"] } competitorTx "0xhash1" =
      ({ myGasCost := 55, editedTxHash := ["0xhash0", "0xhash1"] },
       some { origTx with gasPrice := 55 }) := by
  refine ⟨by decide, ?_⟩
  exact (mempoolTracking_bump origTx "0x00" (trackOf "0xborrower")
    { myGasCost := 30, editedTxHash := ["0xhash0"] } competitorTx "0xhash1"
    (by decide)).1 (by decide)
